import Mathlib

set_option maxRecDepth 4000

/-!
Shallow embedding of `helpers/shm-cleanup.py`, a one-shot cleaner for
`/dev/shm`.  Python strings become `String`/`List Char`, POSIX timestamps
(compared only with `>`) become `Int`, the binary64 float arithmetic in the
age-threshold computation is modelled exactly — correctly-rounded IEEE 754
doubles carried as dyadic rationals, with overflow to infinity —
`os.stat` becomes an oracle `String → Option StatResult` (where `none`
models the call raising `OSError`), and a function that can raise returns
`Option`.  The sets built by the script become `Finset String`.
-/

/-- Substring helper used below: is `pat` an initial segment of `l`? -/
def listIsPre : List Char → List Char → Bool
  | [], _ => true
  | _ :: _, [] => false
  | a :: as, b :: bs => a == b && listIsPre as bs

/-- Does `pat` occur as a contiguous run inside `l`?  (Python's `pat in s`.) -/
def listHasSub (pat : List Char) : List Char → Bool
  | [] => listIsPre pat []
  | c :: rest => listIsPre pat (c :: rest) || listHasSub pat rest

/-- Python's substring test `pat in s` on strings. -/
def strIn (pat s : String) : Bool := listHasSub pat.data s.data

/-- Is `pre` an initial segment of `l`, returning the remainder? -/
def stripPre : List Char → List Char → Option (List Char)
  | [], l => some l
  | _ :: _, [] => none
  | a :: as, b :: bs => if a == b then stripPre as bs else none

/-- Characters of a path component: everything up to the next slash. -/
def takeUntilSlash : List Char → List Char
  | [] => []
  | c :: rest => if c == '/' then [] else c :: takeUntilSlash rest

/-- `firstLevelDevShmPath` from the script: `re.match(r'(/dev/shm/[^/]+)', path)`
yields the first-level path, and a non-matching argument raises `ValueError`
(modelled by `none`). -/
def firstLevelDevShmPath (p : String) : Option String :=
  match stripPre "/dev/shm/".data p.data with
  | none => none
  | some rest =>
    let comp := takeUntilSlash rest
    if comp.isEmpty then none else some (String.mk ("/dev/shm/".data ++ comp))

/-- `os.stat` result restricted to the three fields the script reads. -/
structure StatResult where
  st_mtime : Int
  st_ctime : Int
  st_atime : Int
deriving DecidableEq

/-- `special_cutoff_threshold = 3600`: seconds in the special-treatment window. -/
def special_cutoff_threshold : Int := 3600

/-- The pattern test on line 74 of the script:
`'psm2_shm' in path or 'vader_segment' in path`. -/
def isSpecialShmPath (p : String) : Bool :=
  strIn "psm2_shm" p || strIn "vader_segment" p

/-- `devShmPathShouldInclude_Strict`: stat the path (a raising `os.stat` is
`none`) and protect it (return `False`) when any of mtime/ctime/atime is
newer than the standard cutoff; include (`True`) otherwise.  (The Python
condition `s and s.st_mtime > cutoff or ...` groups as
`(s and mtime > cutoff) or ctime > cutoff or atime > cutoff`, and a
`stat_result` is always truthy, so it is the plain three-way disjunction.) -/
def devShmPathShouldInclude_Strict (cutoff : Int) (stat : String → Option StatResult)
    (path : String) : Option Bool :=
  match stat path with
  | none => none
  | some s =>
    if s.st_mtime > cutoff ∨ s.st_ctime > cutoff ∨ s.st_atime > cutoff then some false
    else some true

/-- `devShmPathShouldInclude_SpecialTreatment`: paths containing `psm2_shm` or
`vader_segment` are judged against the special cutoff; every other path falls
through to the strict policy. -/
def devShmPathShouldInclude_SpecialTreatment (cutoff scutoff : Int)
    (stat : String → Option StatResult) (path : String) : Option Bool :=
  if strIn "psm2_shm" path || strIn "vader_segment" path then
    match stat path with
    | none => none
    | some s =>
      if s.st_mtime > scutoff ∨ s.st_ctime > scutoff ∨ s.st_atime > scutoff then some false
      else some true
  else devShmPathShouldInclude_Strict cutoff stat path

/-- The module-level rebinding: `devShmPathShouldInclude` is the
special-treatment function unless `--no-special-treatment` was given, in which
case it is rebound to the strict function (lines 82 and 163-164). -/
def devShmPathShouldInclude (disabled : Bool) (cutoff scutoff : Int)
    (stat : String → Option StatResult) (path : String) : Option Bool :=
  if disabled then devShmPathShouldInclude_Strict cutoff stat path
  else devShmPathShouldInclude_SpecialTreatment cutoff scutoff stat path

/-- Convenience predicate: some timestamp of `s` is strictly newer than `t`. -/
def anyNewer (s : StatResult) (t : Int) : Prop :=
  s.st_mtime > t ∨ s.st_ctime > t ∨ s.st_atime > t

instance (s : StatResult) (t : Int) : Decidable (anyNewer s t) := by
  unfold anyNewer; infer_instance

/-- Digit test `[0-9]`. -/
def isDigitCh (c : Char) : Bool := '0' ≤ c && c ≤ '9'

/-- Split a leading run of digits off a character list. -/
def takeDigits : List Char → List Char × List Char
  | [] => ([], [])
  | c :: rest =>
    if isDigitCh c then
      let r := takeDigits rest
      (c :: r.1, r.2)
    else ([], c :: rest)

/-- Decimal value of a digit string. -/
def natOfDigits (l : List Char) : Nat :=
  l.foldl (fun a c => 10 * a + (c.toNat - '0'.toNat)) 0

/-- The unsigned-number part of the age regex,
`([0-9]*(\.[0-9]+))|([0-9]+(\.[0-9]*)?)`: digits with an optional decimal
point, at least one digit overall.  This step only recognises the text and
records its exact decimal value as a numerator/denominator pair (the
denominator is the power of ten of the fractional part); the conversion to a
binary64 float — `float(group(1))` — is modelled separately by
`roundPosToDouble` below, which is exactly what CPython's correctly-rounded
string-to-double conversion computes on this value. -/
def parseNumber (l : List Char) : Option (Nat × Nat) :=
  let p := takeDigits l
  match p.2 with
  | [] => if p.1.isEmpty then none else some (natOfDigits p.1, 1)
  | '.' :: rest2 =>
    let q := takeDigits rest2
    if q.2.isEmpty then
      if p.1.isEmpty && q.1.isEmpty then none
      else some (natOfDigits p.1 * 10 ^ q.1.length + natOfDigits q.1, 10 ^ q.1.length)
    else none
  | _ => none

/-- The `[smhdSMHD]` unit-suffix alternatives of the age regex. -/
def isAgeUnitCh (c : Char) : Bool :=
  c == 's' || c == 'S' || c == 'm' || c == 'M' || c == 'h' || c == 'H' || c == 'd' || c == 'D'

/-- `age_unit_to_multiplier` from the script: seconds per unit, defaulting to
days when no unit is given; an unknown unit raises (`none`). -/
def age_unit_to_multiplier (u : Option Char) : Option Nat :=
  match u with
  | none => some 86400
  | some c =>
    if c == 's' || c == 'S' then some 1
    else if c == 'm' || c == 'M' then some 60
    else if c == 'h' || c == 'H' then some 3600
    else if c == 'd' || c == 'D' then some 86400
    else none

/-- The optional `[+-]` sign of the age regex. -/
def signSplit (l : List Char) : Int × List Char :=
  match l with
  | [] => (1, [])
  | c :: rest =>
    if c == '+' then (1, rest)
    else if c == '-' then ((-1 : Int), rest)
    else (1, c :: rest)

/-- Round the rational `a / b` (`b ≠ 0`) to the nearest natural, ties to
even — the rounding IEEE 754 binary64 arithmetic uses. -/
def roundHalfEven (a b : Nat) : Nat :=
  if 2 * (a % b) < b then a / b
  else if b < 2 * (a % b) then a / b + 1
  else if (a / b) % 2 = 0 then a / b else a / b + 1

/-- Floor of the base-2 logarithm, driven by explicit fuel so that it is
structurally recursive (calling it with `fuel = n` is always enough, since
the recursion depth is at most `log2 n ≤ n`).  Values of 64 bits and more
are consumed 64 bits at a time so that evaluation inside proofs stays
shallow. -/
def log2Fuel : Nat → Nat → Nat
  | 0, _ => 0
  | fuel + 1, n =>
    if 2 ^ 64 ≤ n then log2Fuel fuel (n / 2 ^ 64) + 64
    else if 2 ≤ n then log2Fuel fuel (n / 2) + 1
    else 0

/-- The binary64 grid exponent (the exponent of one unit in the last place)
for a positive value whose floor-of-log2 is `E`: `E − 52` for normal values,
the fixed `−1074` below the normal range. -/
def gridExp (E : Int) : Int :=
  if -1022 ≤ E then E - 52 else -1074

/-- Round the positive rational `num / den` onto the binary64 grid with ulp
`2 ^ u`, giving the value as a dyadic pair `(m, u)` (value `m · 2 ^ u`), or
`none` when the rounded value reaches `2 ^ 1024`, i.e. overflows to
infinity. -/
def doubleRound (num den : Nat) (u : Int) : Option (Nat × Int) :=
  if 2 ^ 1024 * 2 ^ (-u).toNat
      ≤ roundHalfEven (num * 2 ^ (-u).toNat) (den * 2 ^ u.toNat) * 2 ^ u.toNat
  then none
  else some (roundHalfEven (num * 2 ^ (-u).toNat) (den * 2 ^ u.toNat), u)

/-- CPython's `float()` on a nonnegative decimal value `num / den`:
correctly rounded (nearest, ties to even) to IEEE 754 binary64, returned as
an exact dyadic pair, with `none` for overflow to infinity.  The binade is
found on the value scaled by `2 ^ 2200` (values below `2 ^ −2200` are far
below half the smallest subnormal `2 ^ −1074` and round to zero). -/
def roundPosToDouble (num den : Nat) : Option (Nat × Int) :=
  if num * 2 ^ 2200 / den = 0 then some (0, 0)
  else
    doubleRound num den
      (gridExp ((log2Fuel (num * 2 ^ 2200 / den) (num * 2 ^ 2200 / den) : Int) - 2200))

/-- IEEE multiplication of a nonnegative binary64 value (as a dyadic pair)
by a small exact natural multiplier (the unit multipliers are all below
`2 ^ 53`, hence exactly representable): the exact product, rounded back to
binary64. -/
def mulDoubleNat (d : Nat × Int) (mult : Nat) : Option (Nat × Int) :=
  if 0 ≤ d.2 then roundPosToDouble (d.1 * mult * 2 ^ d.2.toNat) 1
  else roundPosToDouble (d.1 * mult) (2 ^ (-d.2).toNat)

/-- Python's `int()` on a nonnegative finite double given as a dyadic pair:
exact truncation (floor, as the value is nonnegative). -/
def truncDyadic (d : Nat × Int) : Nat :=
  if 0 ≤ d.2 then d.1 * 2 ^ d.2.toNat else d.1 / 2 ^ (-d.2).toNat

/-- The magnitude computation `int(float(number) * multiplier)` of the
script: convert the decimal value `num / den` to a binary64 double, multiply
by the unit multiplier in binary64, truncate.  `none` models the
`OverflowError` that `int()` raises on an infinite product (a decimal string
beyond the double range parses to `inf`, never raising in `float()` itself);
the script's `except Exception` turns that into `sys.exit(2)`. -/
def floatTimesInt (num den mult : Nat) : Option Nat :=
  match roundPosToDouble num den with
  | none => none
  | some d =>
    match mulDoubleNat d mult with
    | none => none
    | some p => some (truncDyadic p)

/-- The body of the age-threshold computation, after the trailing-newline
concession of `$` has been handled: strip an optional unit letter, an
optional sign, parse the number, and compute `int(float(number) * mult)` in
binary64 arithmetic.  `float` and `int()` are symmetric in the sign, so the
sign is applied outside the magnitude pipeline; `none` from the pipeline is
the caught `OverflowError`, which exits 2 exactly like a regex mismatch. -/
def parseAgeCore (l : List Char) : Option Int :=
  let pu : List Char × Option Char :=
    match l.getLast? with
    | some c => if isAgeUnitCh c then (l.dropLast, some c) else (l, none)
    | none => (l, none)
  let sn := signSplit pu.1
  match parseNumber sn.2, age_unit_to_multiplier pu.2 with
  | some v, some m =>
    match floatTimesInt v.1 v.2 m with
    | none => none
    | some t => some (sn.1 * (t : Int))
  | _, _ => none

/-- Lines 177-186 of the script: match the age string against
`^([+-]?(([0-9]*(\.[0-9]+))|([0-9]+(\.[0-9]*)?)))([smhdSMHD])?$` and compute
`int(float(number) * age_unit_to_multiplier(unit))`; `none` models the
`sys.exit(2)` path.  (`$` in Python also matches just before one trailing
newline, hence the initial strip.) -/
def parseAgeThreshold (s : String) : Option Int :=
  let l := s.data
  let l2 := match l.getLast? with
            | some c => if c == '\n' then l.dropLast else l
            | none => l
  parseAgeCore l2

/-- The CLI options of the script that influence the pipeline's visible
behaviour (logging-only options are omitted). -/
structure CliArgs where
  is_dry_run : Bool
  age_threshold : String
  is_special_treatment_disabled : Bool

/-- The ambient state a run observes: the files found at any depth by
`os.walk('/dev/shm')`, the first-level directories, the `os.stat` oracle
(`none` = the call raises), the uid, whether spawning `lsof` succeeds, the
set of first-level in-use paths extracted from `lsof` output, and the clock. -/
structure ShmFs where
  files : List String
  topDirs : List String
  stat : String → Option StatResult
  uid : Nat
  lsofSpawnOk : Bool
  inUse : Finset String
  now : Int

/-- The classification loop over files (lines 200-205): every file at any
depth is classified and its first-level ancestor is added to the include or
exclude set; an exception anywhere (stat raising, or a path outside
`/dev/shm`) aborts the walk (`none`). -/
def classifyFiles (cls : String → Option Bool) :
    List String → Option (Finset String × Finset String)
  | [] => some (∅, ∅)
  | p :: rest =>
    match classifyFiles cls rest, cls p, firstLevelDevShmPath p with
    | some prev, some b, some fl =>
      if b then some (insert fl prev.1, prev.2) else some (prev.1, insert fl prev.2)
    | _, _, _ => none

/-- The first-level-directory loop (lines 209-213): a passing directory is
added to the include set only; a failing one goes nowhere. -/
def classifyDirs (cls : String → Option Bool) : List String → Option (Finset String)
  | [] => some ∅
  | p :: rest =>
    match classifyDirs cls rest, cls p with
    | some prev, some b => if b then some (insert p prev) else some prev
    | _, _ => none

/-- The whole age-classification stage (lines 198-218): run both loops and
finish with `include_shm_entities -= exclude_shm_entities`. -/
def runClassification (disabled : Bool) (cutoff scutoff : Int) (fs : ShmFs) :
    Option (Finset String × Finset String) :=
  match classifyFiles (devShmPathShouldInclude disabled cutoff scutoff fs.stat) fs.files,
        classifyDirs (devShmPathShouldInclude disabled cutoff scutoff fs.stat) fs.topDirs with
  | some fc, some dinc => some ((fc.1 ∪ dinc) \ fc.2, fc.2)
  | _, _ => none

/-- Observable outcome of a run: a clean exit with the set of paths handed to
`rm -rf`, or a crash from an uncaught exception. -/
inductive RunResult where
  | exited (code : Nat) (removed : Finset String)
  | crashed
deriving DecidableEq

/-- The set of paths a run attempted to remove (a crashed or dry run removes
nothing). -/
def RunResult.removedSet : RunResult → Finset String
  | .exited _ r => r
  | .crashed => ∅

/-- The script's main flow after argument parsing: age-threshold parsing
(exit 2 on failure), cutoff computation, the classification walk (uncaught
exceptions crash), the root check (exit 1), spawning `lsof` (exit 1 if the
spawn itself fails), the final set difference against the in-use set, and
removal (suppressed under `--dry-run`).  Individual `rm` failures do not
change the outcome, so `removed` records the attempted set. -/
def runMain (args : CliArgs) (fs : ShmFs) : RunResult :=
  match parseAgeThreshold args.age_threshold with
  | none => .exited 2 ∅
  | some age_threshold =>
    let cutoff_timestamp := fs.now - age_threshold
    let special_cutoff_timestamp := fs.now - special_cutoff_threshold
    match runClassification args.is_special_treatment_disabled
        cutoff_timestamp special_cutoff_timestamp fs with
    | none => .crashed
    | some fc =>
      if fs.uid ≠ 0 then .exited 1 ∅
      else if !fs.lsofSpawnOk then .exited 1 ∅
      else
        let remove_shm_entities := fc.1 \ fs.inUse
        if args.is_dry_run then .exited 0 ∅
        else .exited 0 remove_shm_entities

/-- With special treatment left enabled, the dispatched classifier is the
special-treatment function (line 82 of the script). -/
theorem include_special_policy (c sc : Int) (stat : String → Option StatResult) (path : String) :
    devShmPathShouldInclude false c sc stat path
      = devShmPathShouldInclude_SpecialTreatment c sc stat path := rfl

/-- Evaluation of the strict classifier once the stat succeeds. -/
theorem strict_eval (c : Int) (stat : String → Option StatResult) (path : String)
    (s : StatResult) (hstat : stat path = some s) :
    devShmPathShouldInclude_Strict c stat path
      = if s.st_mtime > c ∨ s.st_ctime > c ∨ s.st_atime > c then some false else some true := by
  unfold devShmPathShouldInclude_Strict
  rw [hstat]

/-- Evaluation of the special-treatment classifier on a matching path. -/
theorem specialTreatment_matching (c sc : Int) (stat : String → Option StatResult)
    (path : String) (s : StatResult)
    (hspec : isSpecialShmPath path = true) (hstat : stat path = some s) :
    devShmPathShouldInclude_SpecialTreatment c sc stat path
      = if s.st_mtime > sc ∨ s.st_ctime > sc ∨ s.st_atime > sc then some false else some true := by
  unfold devShmPathShouldInclude_SpecialTreatment
  unfold isSpecialShmPath at hspec
  simp only [hspec, if_true, hstat]

/-- The special-treatment classifier falls through to the strict policy on a
non-matching path. -/
theorem specialTreatment_nonmatching (c sc : Int) (stat : String → Option StatResult)
    (path : String) (hspec : isSpecialShmPath path = false) :
    devShmPathShouldInclude_SpecialTreatment c sc stat path
      = devShmPathShouldInclude_Strict c stat path := by
  unfold devShmPathShouldInclude_SpecialTreatment
  unfold isSpecialShmPath at hspec
  simp only [hspec, Bool.false_eq_true, if_false]

/-- C1: with special treatment enabled, an entry whose path matches a
special-treatment pattern is judged only against the special cutoff
`now − 1 hour`: the verdict is the same for any two user-supplied age
thresholds, and the entry is protected (classified `False`) exactly when some
timestamp is newer than `now − 1 hour`. -/
theorem special_path_protected_iff_recent_one_hour
    (now t₁ t₂ : Int) (stat : String → Option StatResult) (path : String) (s : StatResult)
    (hspec : isSpecialShmPath path = true) (hstat : stat path = some s) :
    devShmPathShouldInclude false (now - t₁) (now - special_cutoff_threshold) stat path
      = devShmPathShouldInclude false (now - t₂) (now - special_cutoff_threshold) stat path
    ∧ (devShmPathShouldInclude false (now - t₁) (now - special_cutoff_threshold) stat path
        = some false
        ↔ anyNewer s (now - special_cutoff_threshold)) := by
  simp only [include_special_policy]
  rw [specialTreatment_matching _ _ _ _ _ hspec hstat,
    specialTreatment_matching _ _ _ _ _ hspec hstat]
  refine ⟨rfl, ?_⟩
  unfold anyNewer
  by_cases h : s.st_mtime > now - special_cutoff_threshold
      ∨ s.st_ctime > now - special_cutoff_threshold
      ∨ s.st_atime > now - special_cutoff_threshold
  · rw [if_pos h]
    simp [h]
  · rw [if_neg h]
    simp [h]

/-- Witness for C1 at a concrete input: a `psm2_shm` entry touched 1000
seconds ago is protected under a 1-day threshold exactly as under a 5-second
threshold, because 1000 s is inside the 1-hour window. -/
theorem special_path_protected_iff_recent_one_hour_witness :
    devShmPathShouldInclude false (10000 - 86400) (10000 - special_cutoff_threshold)
        (fun p => if p = "/dev/shm/psm2_shm_1" then some ⟨9000, 100, 100⟩ else none)
        "/dev/shm/psm2_shm_1"
      = devShmPathShouldInclude false (10000 - 5) (10000 - special_cutoff_threshold)
        (fun p => if p = "/dev/shm/psm2_shm_1" then some ⟨9000, 100, 100⟩ else none)
        "/dev/shm/psm2_shm_1"
    ∧ (devShmPathShouldInclude false (10000 - 86400) (10000 - special_cutoff_threshold)
        (fun p => if p = "/dev/shm/psm2_shm_1" then some ⟨9000, 100, 100⟩ else none)
        "/dev/shm/psm2_shm_1"
        = some false
        ↔ anyNewer ⟨9000, 100, 100⟩ (10000 - special_cutoff_threshold)) :=
  special_path_protected_iff_recent_one_hour 10000 86400 5
    (fun p => if p = "/dev/shm/psm2_shm_1" then some ⟨9000, 100, 100⟩ else none)
    "/dev/shm/psm2_shm_1" ⟨9000, 100, 100⟩ (by decide) (by decide)

/-- C3: an entry whose three timestamps are all at most the standard cutoff
and whose path matches no special-treatment pattern is classified as included
by the dispatched classifier; and the strict policy protects (returns
`False`) exactly when at least one timestamp is newer than the standard
cutoff. -/
theorem all_old_nonspecial_included_and_strict_characterization
    (cutoff scutoff : Int) (stat : String → Option StatResult) (path : String)
    (s : StatResult) (hstat : stat path = some s) :
    (isSpecialShmPath path = false →
      s.st_mtime ≤ cutoff → s.st_ctime ≤ cutoff → s.st_atime ≤ cutoff →
      devShmPathShouldInclude false cutoff scutoff stat path = some true)
    ∧ (devShmPathShouldInclude_Strict cutoff stat path = some false ↔ anyNewer s cutoff) := by
  constructor
  · intro hns h1 h2 h3
    rw [include_special_policy, specialTreatment_nonmatching _ _ _ _ hns,
      strict_eval _ _ _ _ hstat, if_neg (by omega)]
  · rw [strict_eval _ _ _ _ hstat]
    unfold anyNewer
    by_cases h : s.st_mtime > cutoff ∨ s.st_ctime > cutoff ∨ s.st_atime > cutoff
    · rw [if_pos h]
      simp [h]
    · rw [if_neg h]
      simp [h]

/-- Witness for C3 at a concrete input: an entry last touched at time 50 with
cutoff 100 and a non-special name is included, and the strict classifier
excludes it exactly when some timestamp exceeds 100 (here none does). -/
theorem all_old_nonspecial_included_and_strict_characterization_witness :
    devShmPathShouldInclude false 100 3000
        (fun p => if p = "/dev/shm/job_42" then some ⟨50, 60, 70⟩ else none)
        "/dev/shm/job_42" = some true
    ∧ (devShmPathShouldInclude_Strict 100
        (fun p => if p = "/dev/shm/job_42" then some ⟨50, 60, 70⟩ else none)
        "/dev/shm/job_42" = some false ↔ anyNewer ⟨50, 60, 70⟩ 100) :=
  ⟨(all_old_nonspecial_included_and_strict_characterization 100 3000
      (fun p => if p = "/dev/shm/job_42" then some ⟨50, 60, 70⟩ else none)
      "/dev/shm/job_42" ⟨50, 60, 70⟩ (by decide)).1
      (by decide) (by decide) (by decide) (by decide),
    (all_old_nonspecial_included_and_strict_characterization 100 3000
      (fun p => if p = "/dev/shm/job_42" then some ⟨50, 60, 70⟩ else none)
      "/dev/shm/job_42" ⟨50, 60, 70⟩ (by decide)).2⟩

/-- C5: with special treatment enabled, the special cutoff governs exactly
the paths containing one of the two segment substrings — such a path is
protected iff some timestamp is newer than the special cutoff — and every
non-matching path is classified by the strict policy with the standard
cutoff. -/
theorem special_cutoff_exactly_on_matching_paths
    (cutoff scutoff : Int) (stat : String → Option StatResult) (path : String)
    (s : StatResult) (hstat : stat path = some s) :
    (isSpecialShmPath path = true →
      (devShmPathShouldInclude false cutoff scutoff stat path = some false
        ↔ anyNewer s scutoff))
    ∧ (isSpecialShmPath path = false →
      devShmPathShouldInclude false cutoff scutoff stat path
        = devShmPathShouldInclude_Strict cutoff stat path) := by
  constructor
  · intro hspec
    rw [include_special_policy, specialTreatment_matching _ _ _ _ _ hspec hstat]
    unfold anyNewer
    by_cases h : s.st_mtime > scutoff ∨ s.st_ctime > scutoff ∨ s.st_atime > scutoff
    · rw [if_pos h]
      simp [h]
    · rw [if_neg h]
      simp [h]
  · intro hns
    rw [include_special_policy, specialTreatment_nonmatching _ _ _ _ hns]

/-- Witness for C5 at a concrete input: a `vader_segment` entry with one
timestamp newer than the special cutoff is protected. -/
theorem special_cutoff_exactly_on_matching_paths_witness :
    devShmPathShouldInclude false 100 50
        (fun p => if p = "/dev/shm/vader_segment_7" then some ⟨60, 0, 0⟩ else none)
        "/dev/shm/vader_segment_7" = some false :=
  ((special_cutoff_exactly_on_matching_paths 100 50
      (fun p => if p = "/dev/shm/vader_segment_7" then some ⟨60, 0, 0⟩ else none)
      "/dev/shm/vader_segment_7" ⟨60, 0, 0⟩ (by decide)).1
    (by decide)).mpr (by decide)

/-- C7: with `--no-special-treatment`, the dispatched classifier is the
strict classifier on every input — a segment-named path included. -/
theorem disabled_special_treatment_is_strict
    (cutoff scutoff : Int) (stat : String → Option StatResult) (path : String) :
    devShmPathShouldInclude true cutoff scutoff stat path
      = devShmPathShouldInclude_Strict cutoff stat path := rfl

/-- C10: the age regex accepts a leading minus: `"-1d"` parses to the
negative threshold −86400 s, which puts the standard cutoff in the future of
`now`, so every stat-able entry with timestamps not beyond `now` whose path
matches no special-treatment pattern is classified as included. -/
theorem negative_age_threshold_parses_and_includes_all
    : parseAgeThreshold "-1d" = some (-86400)
    ∧ (-86400 : Int) < 0
    ∧ (∀ now : Int, now < now - (-86400))
    ∧ (∀ (now : Int) (stat : String → Option StatResult) (path : String) (s : StatResult),
        isSpecialShmPath path = false → stat path = some s →
        s.st_mtime ≤ now → s.st_ctime ≤ now → s.st_atime ≤ now →
        devShmPathShouldInclude false (now - (-86400)) (now - special_cutoff_threshold)
          stat path = some true) := by
  refine ⟨by decide, by decide, fun now => by omega, ?_⟩
  intro now stat path s hns hstat h1 h2 h3
  rw [include_special_policy, specialTreatment_nonmatching _ _ _ _ hns,
    strict_eval _ _ _ _ hstat, if_neg (by omega)]

/-- Witness for C10 at a concrete input: with threshold −86400 and `now = 0`,
an ordinary entry whose timestamps are all at most 0 is included. -/
theorem negative_age_threshold_parses_and_includes_all_witness :
    parseAgeThreshold "-1d" = some (-86400)
    ∧ devShmPathShouldInclude false ((0 : Int) - (-86400)) ((0 : Int) - special_cutoff_threshold)
        (fun p => if p = "/dev/shm/data" then some ⟨0, -5, -3600⟩ else none)
        "/dev/shm/data" = some true :=
  ⟨negative_age_threshold_parses_and_includes_all.1,
    negative_age_threshold_parses_and_includes_all.2.2.2 0
      (fun p => if p = "/dev/shm/data" then some ⟨0, -5, -3600⟩ else none)
      "/dev/shm/data" ⟨0, -5, -3600⟩ (by decide) (by decide) (by decide) (by decide) (by decide)⟩

/-- A file classified `False` anywhere in the walk puts its first-level
ancestor into the exclusion set. -/
theorem classifyFiles_excluded_mem (cls : String → Option Bool) (files : List String)
    (p fl : String) (inc exc : Finset String)
    (hmem : p ∈ files) (hcls : cls p = some false) (hfl : firstLevelDevShmPath p = some fl)
    (hrun : classifyFiles cls files = some (inc, exc)) : fl ∈ exc := by
  induction files generalizing inc exc with
  | nil => cases hmem
  | cons q rest ih =>
    rw [classifyFiles] at hrun
    cases hprev : classifyFiles cls rest with
    | none =>
      rw [hprev] at hrun
      cases hrun
    | some prev =>
      rw [hprev] at hrun
      cases hc : cls q with
      | none =>
        rw [hc] at hrun
        cases hrun
      | some b =>
        rw [hc] at hrun
        cases hf : firstLevelDevShmPath q with
        | none =>
          rw [hf] at hrun
          cases hrun
        | some flq =>
          rw [hf] at hrun
          rcases List.mem_cons.mp hmem with heq | hmem'
          · subst heq
            rw [hcls] at hc
            injection hc with hb
            subst hb
            rw [hfl] at hf
            injection hf with hflq
            subst hflq
            replace hrun : some (prev.1, insert fl prev.2) = some (inc, exc) := hrun
            simp only [Option.some.injEq, Prod.mk.injEq] at hrun
            obtain ⟨h1, h2⟩ := hrun
            subst h2
            exact Finset.mem_insert_self fl prev.2
          · have hprev2 : fl ∈ prev.2 := ih _ _ hmem' hprev
            cases b with
            | false =>
              replace hrun : some (prev.1, insert flq prev.2) = some (inc, exc) := hrun
              simp only [Option.some.injEq, Prod.mk.injEq] at hrun
              obtain ⟨h1, h2⟩ := hrun
              subst h2
              exact Finset.mem_insert_of_mem hprev2
            | true =>
              replace hrun : some (insert flq prev.1, prev.2) = some (inc, exc) := hrun
              simp only [Option.some.injEq, Prod.mk.injEq] at hrun
              obtain ⟨h1, h2⟩ := hrun
              subst h2
              exact hprev2

/-- C2: if any file at any depth is classified as excluded, its first-level
ancestor is absent from the final included set (and present in the excluded
set) after `include_shm_entities -= exclude_shm_entities`, whatever the other
files and first-level directories contributed. -/
theorem excluded_file_forces_first_level_exclusion
    (disabled : Bool) (cutoff scutoff : Int) (fs : ShmFs) (p fl : String)
    (inc exc : Finset String)
    (hmem : p ∈ fs.files)
    (hcls : devShmPathShouldInclude disabled cutoff scutoff fs.stat p = some false)
    (hfl : firstLevelDevShmPath p = some fl)
    (hrun : runClassification disabled cutoff scutoff fs = some (inc, exc)) :
    fl ∉ inc ∧ fl ∈ exc := by
  rw [runClassification] at hrun
  cases hfc : classifyFiles (devShmPathShouldInclude disabled cutoff scutoff fs.stat) fs.files with
  | none =>
    rw [hfc] at hrun
    cases hrun
  | some fc =>
    rw [hfc] at hrun
    cases hd : classifyDirs (devShmPathShouldInclude disabled cutoff scutoff fs.stat) fs.topDirs with
    | none =>
      rw [hd] at hrun
      cases hrun
    | some dinc =>
      rw [hd] at hrun
      simp only [Option.some.injEq, Prod.mk.injEq] at hrun
      obtain ⟨h1, h2⟩ := hrun
      subst h1
      subst h2
      have hexc : fl ∈ fc.2 := classifyFiles_excluded_mem _ _ _ _ _ _ hmem hcls hfl hfc
      exact ⟨fun hin => (Finset.mem_sdiff.mp hin).2 hexc, hexc⟩

/-- C4: after the classification stage the included and excluded sets are
disjoint; `remove_shm_entities = include_shm_entities − inuse_shm_entities`
is a subset of the included set and disjoint from the in-use set, and the set
of paths a full run hands to `rm -rf` obeys the same two bounds. -/
theorem classification_disjoint_and_removal_safe
    (args : CliArgs) (fs : ShmFs) (t : Int) (inc exc : Finset String)
    (hparse : parseAgeThreshold args.age_threshold = some t)
    (hrun : runClassification args.is_special_treatment_disabled
      (fs.now - t) (fs.now - special_cutoff_threshold) fs = some (inc, exc)) :
    Disjoint inc exc
    ∧ inc \ fs.inUse ⊆ inc ∧ Disjoint (inc \ fs.inUse) fs.inUse
    ∧ (runMain args fs).removedSet ⊆ inc
    ∧ Disjoint ((runMain args fs).removedSet) fs.inUse := by
  have hdisj : Disjoint inc exc := by
    rw [runClassification] at hrun
    cases hfc : classifyFiles
        (devShmPathShouldInclude args.is_special_treatment_disabled
          (fs.now - t) (fs.now - special_cutoff_threshold) fs.stat) fs.files with
    | none =>
      rw [hfc] at hrun
      cases hrun
    | some fc =>
      rw [hfc] at hrun
      cases hd : classifyDirs
          (devShmPathShouldInclude args.is_special_treatment_disabled
            (fs.now - t) (fs.now - special_cutoff_threshold) fs.stat) fs.topDirs with
      | none =>
        rw [hd] at hrun
        cases hrun
      | some dinc =>
        rw [hd] at hrun
        simp only [Option.some.injEq, Prod.mk.injEq] at hrun
        obtain ⟨h1, h2⟩ := hrun
        subst h1
        subst h2
        exact Finset.sdiff_disjoint
  have hmain : (runMain args fs).removedSet = ∅
      ∨ (runMain args fs).removedSet = inc \ fs.inUse := by
    by_cases hu : fs.uid = 0
    · by_cases hl : fs.lsofSpawnOk = true
      · by_cases hd : args.is_dry_run = true
        · left
          simp [runMain, hparse, hrun, hu, hl, hd, RunResult.removedSet]
        · right
          simp [runMain, hparse, hrun, hu, hl, hd, RunResult.removedSet]
      · left
        simp [runMain, hparse, hrun, hu, hl, RunResult.removedSet]
    · left
      simp [runMain, hparse, hrun, hu, RunResult.removedSet]
  refine ⟨hdisj, Finset.sdiff_subset, Finset.sdiff_disjoint, ?_, ?_⟩
  · rcases hmain with h | h
    · rw [h]
      exact Finset.empty_subset _
    · rw [h]
      exact Finset.sdiff_subset
  · rcases hmain with h | h
    · rw [h]
      exact Finset.disjoint_empty_left _
    · rw [h]
      exact Finset.sdiff_disjoint

/-- Witness for C4 at a concrete input: one old entry and one freshly touched
entry; the run removes only the old entry, which is included and not in use. -/
theorem classification_disjoint_and_removal_safe_witness :
    Disjoint ({"/dev/shm/old"} : Finset String) ({"/dev/shm/fresh"} : Finset String)
    ∧ ({"/dev/shm/old"} : Finset String) \ {"/dev/shm/used"} ⊆ {"/dev/shm/old"}
    ∧ Disjoint (({"/dev/shm/old"} : Finset String) \ {"/dev/shm/used"}) {"/dev/shm/used"}
    ∧ (runMain ⟨false, "1", false⟩
        ⟨["/dev/shm/old", "/dev/shm/fresh"], [],
          (fun p => if p = "/dev/shm/fresh" then some ⟨999999, 0, 0⟩ else some ⟨0, 0, 0⟩),
          0, true, {"/dev/shm/used"}, 100000⟩).removedSet ⊆ {"/dev/shm/old"}
    ∧ Disjoint ((runMain ⟨false, "1", false⟩
        ⟨["/dev/shm/old", "/dev/shm/fresh"], [],
          (fun p => if p = "/dev/shm/fresh" then some ⟨999999, 0, 0⟩ else some ⟨0, 0, 0⟩),
          0, true, {"/dev/shm/used"}, 100000⟩).removedSet) {"/dev/shm/used"} :=
  classification_disjoint_and_removal_safe ⟨false, "1", false⟩
    ⟨["/dev/shm/old", "/dev/shm/fresh"], [],
      (fun p => if p = "/dev/shm/fresh" then some ⟨999999, 0, 0⟩ else some ⟨0, 0, 0⟩),
      0, true, {"/dev/shm/used"}, 100000⟩
    86400 {"/dev/shm/old"} {"/dev/shm/fresh"} (by decide) (by decide)

/-- Both classifier policies call `os.stat` on any path they judge, so on a
vanished path the raised exception propagates out of the dispatched
classifier whichever policy is selected. -/
theorem include_none_of_stat_none (disabled : Bool) (c sc : Int)
    (stat : String → Option StatResult) (p : String) (hstat : stat p = none) :
    devShmPathShouldInclude disabled c sc stat p = none := by
  cases disabled with
  | true =>
    show devShmPathShouldInclude_Strict c stat p = none
    unfold devShmPathShouldInclude_Strict
    rw [hstat]
  | false =>
    rw [include_special_policy]
    unfold devShmPathShouldInclude_SpecialTreatment devShmPathShouldInclude_Strict
    split
    · rw [hstat]
    · rw [hstat]

/-- An exception while classifying any file aborts the whole walk. -/
theorem classifyFiles_none_of_mem_none (cls : String → Option Bool) (files : List String)
    (p : String) (hmem : p ∈ files) (hcls : cls p = none) :
    classifyFiles cls files = none := by
  induction files with
  | nil => cases hmem
  | cons q rest ih =>
    rw [classifyFiles]
    rcases List.mem_cons.mp hmem with heq | hmem'
    · subst heq
      cases h : classifyFiles cls rest with
      | none => rfl
      | some prev => rw [hcls]
    · rw [ih hmem']

/-- C6 as amended: the walk loop has no exception handling around `os.stat`,
so if any path listed during traversal has vanished when its stat is
attempted, the exception propagates out of the classifier and the whole run
crashes (no classification result, no removal). -/
theorem vanished_path_crashes_run (args : CliArgs) (fs : ShmFs) (p : String) (t : Int)
    (hparse : parseAgeThreshold args.age_threshold = some t)
    (hmem : p ∈ fs.files) (hstat : fs.stat p = none) :
    runMain args fs = RunResult.crashed := by
  have hwalk : runClassification args.is_special_treatment_disabled
      (fs.now - t) (fs.now - special_cutoff_threshold) fs = none := by
    rw [runClassification, classifyFiles_none_of_mem_none _ _ _ hmem
      (include_none_of_stat_none _ _ _ _ _ hstat)]
  simp only [runMain, hparse, hwalk]

/-- Counterexample to C6 as stated: a single vanished path does crash the
whole run.  Here every other aspect of the state is benign (root, valid age
threshold, `lsof` available), yet the outcome is a crash, not a handled
skip affecting only that path. -/
theorem vanished_path_crashes_run_cex :
    runMain ⟨false, "1", false⟩
      ⟨["/dev/shm/vanished"], [], (fun _ => none), 0, true, ∅, 1000000⟩
      = RunResult.crashed := by decide

/-- Witness for the amended C6 at a concrete input: a two-file state where
only one file's stat raises still crashes the entire run. -/
theorem vanished_path_crashes_run_witness :
    runMain ⟨false, "2h", false⟩
      ⟨["/dev/shm/alive", "/dev/shm/gone2"], [],
        (fun q => if q = "/dev/shm/alive" then some ⟨0, 0, 0⟩ else none),
        0, true, ∅, 1000000⟩
      = RunResult.crashed :=
  vanished_path_crashes_run ⟨false, "2h", false⟩
    ⟨["/dev/shm/alive", "/dev/shm/gone2"], [],
      (fun q => if q = "/dev/shm/alive" then some ⟨0, 0, 0⟩ else none),
      0, true, ∅, 1000000⟩
    "/dev/shm/gone2" 7200 (by decide) (by decide) (by decide)

/-- C9: a run without root privilege never attempts any removal; once the
age-threshold parse and the classification walk have succeeded it terminates
at the `os.getuid()` check with exit code 1; and its outcome is independent
of the live-use oracle (the `lsof` spawn and the in-use set), which the
script only consults after the privilege check. -/
theorem unprivileged_run_exits_1 (args : CliArgs) (fs : ShmFs) (huid : fs.uid ≠ 0) :
    (runMain args fs).removedSet = ∅
    ∧ (∀ (t : Int) (r : Finset String × Finset String),
        parseAgeThreshold args.age_threshold = some t →
        runClassification args.is_special_treatment_disabled
          (fs.now - t) (fs.now - special_cutoff_threshold) fs = some r →
        runMain args fs = RunResult.exited 1 ∅)
    ∧ (∀ (ok : Bool) (inUse2 : Finset String),
        runMain args { fs with lsofSpawnOk := ok, inUse := inUse2 } = runMain args fs) := by
  cases hparse : parseAgeThreshold args.age_threshold with
  | none =>
    refine ⟨?_, ?_, ?_⟩
    · simp [runMain, hparse, RunResult.removedSet]
    · intro t r hp hr
      cases hp
    · intro ok inUse2
      simp [runMain, hparse]
  | some t =>
    cases hcl : runClassification args.is_special_treatment_disabled
        (fs.now - t) (fs.now - special_cutoff_threshold) fs with
    | none =>
      have hcl2 : ∀ (ok : Bool) (inUse2 : Finset String),
          runClassification args.is_special_treatment_disabled
            (fs.now - t) (fs.now - special_cutoff_threshold)
            { fs with lsofSpawnOk := ok, inUse := inUse2 } = none := fun _ _ => hcl
      refine ⟨?_, ?_, ?_⟩
      · simp [runMain, hparse, hcl, RunResult.removedSet]
      · intro t' r hp hr
        injection hp with ht
        subst ht
        rw [hcl] at hr
        cases hr
      · intro ok inUse2
        simp [runMain, hparse, hcl, hcl2]
    | some fc =>
      have hcl2 : ∀ (ok : Bool) (inUse2 : Finset String),
          runClassification args.is_special_treatment_disabled
            (fs.now - t) (fs.now - special_cutoff_threshold)
            { fs with lsofSpawnOk := ok, inUse := inUse2 } = some fc := fun _ _ => hcl
      refine ⟨?_, ?_, ?_⟩
      · simp [runMain, hparse, hcl, huid, RunResult.removedSet]
      · intro t' r hp hr
        simp [runMain, hparse, hcl, huid]
      · intro ok inUse2
        simp [runMain, hparse, hcl, hcl2, huid]

/-- Witness for C9 at a concrete input: uid 1000, a valid threshold and a
clean walk still end in exit code 1 with nothing removed. -/
theorem unprivileged_run_exits_1_witness :
    (runMain ⟨false, "1", false⟩
      ⟨["/dev/shm/old"], [], (fun _ => some ⟨0, 0, 0⟩), 1000, true, ∅, 1000000⟩).removedSet = ∅
    ∧ runMain ⟨false, "1", false⟩
      ⟨["/dev/shm/old"], [], (fun _ => some ⟨0, 0, 0⟩), 1000, true, ∅, 1000000⟩
      = RunResult.exited 1 ∅ :=
  ⟨(unprivileged_run_exits_1 ⟨false, "1", false⟩
      ⟨["/dev/shm/old"], [], (fun _ => some ⟨0, 0, 0⟩), 1000, true, ∅, 1000000⟩
      (by decide)).1,
    (unprivileged_run_exits_1 ⟨false, "1", false⟩
      ⟨["/dev/shm/old"], [], (fun _ => some ⟨0, 0, 0⟩), 1000, true, ∅, 1000000⟩
      (by decide)).2.1 86400 ({"/dev/shm/old"}, ∅) (by decide) (by decide)⟩

/-- A digit differs from any non-digit character. -/
theorem digit_beq_false (c x : Char) (hc : isDigitCh c = true) (hx : isDigitCh x = false) :
    (c == x) = false := by
  rcases Bool.eq_false_or_eq_true (c == x) with hh | hh
  · have hcx : c = x := by simpa using hh
    subst hcx
    rw [hc] at hx
    cases hx
  · exact hh

/-- A digit is not one of the unit letters. -/
theorem digit_not_unit (c : Char) (hc : isDigitCh c = true) : isAgeUnitCh c = false := by
  unfold isAgeUnitCh
  rw [digit_beq_false c 's' hc (by decide), digit_beq_false c 'S' hc (by decide),
    digit_beq_false c 'm' hc (by decide), digit_beq_false c 'M' hc (by decide),
    digit_beq_false c 'h' hc (by decide), digit_beq_false c 'H' hc (by decide),
    digit_beq_false c 'd' hc (by decide), digit_beq_false c 'D' hc (by decide)]
  rfl

/-- A unit letter is one of the eight accepted characters. -/
theorem ageUnit_cases (u : Char) (h : isAgeUnitCh u = true) :
    u = 's' ∨ u = 'S' ∨ u = 'm' ∨ u = 'M' ∨ u = 'h' ∨ u = 'H' ∨ u = 'd' ∨ u = 'D' := by
  unfold isAgeUnitCh at h
  simp only [Bool.or_eq_true, beq_iff_eq] at h
  tauto

/-- A unit letter is not a newline. -/
theorem ageUnit_ne_newline (u : Char) (h : isAgeUnitCh u = true) : (u == '\n') = false := by
  rcases ageUnit_cases u h with rfl | rfl | rfl | rfl | rfl | rfl | rfl | rfl <;> decide

/-- `takeDigits` consumes an all-digit list completely. -/
theorem takeDigits_all (l : List Char) (h : ∀ c ∈ l, isDigitCh c = true) :
    takeDigits l = (l, []) := by
  induction l with
  | nil => rfl
  | cons c rest ih =>
    rw [takeDigits, if_pos (h c (List.mem_cons_self c rest)),
      ih (fun d hd => h d (List.mem_cons_of_mem c hd))]

/-- `parseNumber` on a nonempty all-digit list yields its decimal value over
denominator 1. -/
theorem parseNumber_digits (l : List Char) (hne : l ≠ []) (h : ∀ c ∈ l, isDigitCh c = true) :
    parseNumber l = some (natOfDigits l, 1) := by
  have hie : l.isEmpty = false := by
    cases l with
    | nil => exact absurd rfl hne
    | cons a as => rfl
  unfold parseNumber
  rw [takeDigits_all l h]
  simp [hie]

/-- `signSplit` leaves an all-digit list alone with sign `+1`. -/
theorem signSplit_digits (l : List Char) (h : ∀ c ∈ l, isDigitCh c = true) :
    signSplit l = (1, l) := by
  cases l with
  | nil => rfl
  | cons c rest =>
    have hc := h c (List.mem_cons_self c rest)
    rw [signSplit]
    rw [digit_beq_false c '+' hc (by decide), digit_beq_false c '-' hc (by decide)]
    simp

/-- The unit multipliers the script can return are all positive. -/
theorem age_unit_multiplier_pos (u : Option Char) (m : Nat)
    (hm : age_unit_to_multiplier u = some m) : 0 < m := by
  cases u with
  | none =>
    simp only [age_unit_to_multiplier, Option.some.injEq] at hm
    omega
  | some c =>
    simp only [age_unit_to_multiplier] at hm
    split_ifs at hm <;> injection hm with h <;> omega

/-- Once the fuel covers the argument, `log2Fuel` brackets its argument
between consecutive powers of two, i.e. it is the floor of the base-2
logarithm. -/
theorem log2Fuel_bounds (fuel : Nat) :
    ∀ n, 1 ≤ n → n ≤ fuel → 2 ^ log2Fuel fuel n ≤ n ∧ n < 2 ^ (log2Fuel fuel n + 1) := by
  induction fuel with
  | zero =>
    intro n h1 h2
    exact absurd (h1.trans h2) (by omega)
  | succ f ih =>
    intro n h1 h2
    rw [log2Fuel]
    by_cases h64 : 2 ^ 64 ≤ n
    · rw [if_pos h64]
      have hd1 : 1 ≤ n / 2 ^ 64 := by omega
      have hd2 : n / 2 ^ 64 ≤ f := by omega
      obtain ⟨hl, hr⟩ := ih (n / 2 ^ 64) hd1 hd2
      have e1 : (2 : Nat) ^ (log2Fuel f (n / 2 ^ 64) + 64)
          = 2 ^ log2Fuel f (n / 2 ^ 64) * 2 ^ 64 := pow_add 2 _ 64
      have e2 : (2 : Nat) ^ (log2Fuel f (n / 2 ^ 64) + 64 + 1)
          = 2 ^ (log2Fuel f (n / 2 ^ 64) + 1) * 2 ^ 64 := by
        rw [show log2Fuel f (n / 2 ^ 64) + 64 + 1 = log2Fuel f (n / 2 ^ 64) + 1 + 64 by omega]
        exact pow_add 2 _ 64
      constructor
      · rw [e1]
        omega
      · rw [e2]
        omega
    · rw [if_neg h64]
      by_cases h2n : 2 ≤ n
      · rw [if_pos h2n]
        have hd1 : 1 ≤ n / 2 := by omega
        have hd2 : n / 2 ≤ f := by omega
        obtain ⟨hl, hr⟩ := ih (n / 2) hd1 hd2
        have e1 : (2 : Nat) ^ (log2Fuel f (n / 2) + 1)
            = 2 ^ log2Fuel f (n / 2) * 2 := pow_succ 2 _
        have e2 : (2 : Nat) ^ (log2Fuel f (n / 2) + 1 + 1)
            = 2 ^ (log2Fuel f (n / 2) + 1) * 2 := pow_succ 2 _
        constructor
        · rw [e1]
          omega
        · rw [e2]
          omega
      · rw [if_neg h2n]
        constructor
        · simpa using h1
        · simpa using by omega

/-- Witness for C2 at a concrete input: `/dev/shm/foo/bar` was touched
recently, so `/dev/shm/foo` ends up in the excluded set and outside the
final included set, even though `/dev/shm/foo/old` and the directory
`/dev/shm/foo` itself were classified as included. -/
theorem excluded_file_forces_first_level_exclusion_witness :
    "/dev/shm/foo" ∉ (∅ : Finset String)
    ∧ "/dev/shm/foo" ∈ ({"/dev/shm/foo"} : Finset String) :=
  excluded_file_forces_first_level_exclusion false 100 50
    ⟨["/dev/shm/foo/bar", "/dev/shm/foo/old"], ["/dev/shm/foo"],
      (fun p => if p = "/dev/shm/foo/bar" then some ⟨99999, 0, 0⟩ else some ⟨0, 0, 0⟩),
      0, true, ∅, 0⟩
    "/dev/shm/foo/bar" "/dev/shm/foo" ∅ {"/dev/shm/foo"}
    (by decide) (by decide) (by decide) (by decide)

/-- The floor-of-log2 bracketing determines the value. -/
theorem log2Fuel_unique (fuel n E : Nat) (h1 : 1 ≤ n) (h2 : n ≤ fuel)
    (hlo : 2 ^ E ≤ n) (hhi : n < 2 ^ (E + 1)) : log2Fuel fuel n = E := by
  obtain ⟨hl, hr⟩ := log2Fuel_bounds fuel n h1 h2
  have h3 : (2 : Nat) ^ log2Fuel fuel n < 2 ^ (E + 1) := lt_of_le_of_lt hl hhi
  have h4 : (2 : Nat) ^ E < 2 ^ (log2Fuel fuel n + 1) := lt_of_le_of_lt hlo hr
  have h5 := (Nat.pow_lt_pow_iff_right (by norm_num : 1 < 2)).mp h3
  have h6 := (Nat.pow_lt_pow_iff_right (by norm_num : 1 < 2)).mp h4
  omega

/-- A positive value below `2 ^ 53` has floor-of-log2 at most 52. -/
theorem log2Fuel_le_52 (n : Nat) (hn : 0 < n) (h53 : n < 2 ^ 53) : log2Fuel n n ≤ 52 := by
  obtain ⟨hl, _⟩ := log2Fuel_bounds n n hn le_rfl
  by_contra hgt
  push_neg at hgt
  have : (2 : Nat) ^ 53 ≤ 2 ^ log2Fuel n n := Nat.pow_le_pow_right (by norm_num) (by omega)
  omega

/-- Correct rounding is exact on rationals that are integers below `2 ^ 53`:
`roundPosToDouble (b * n) b` returns `n` on the normal grid whose ulp is
`2 ^ (log2 n − 52)`. -/
theorem roundPosToDouble_exact_int (b n : Nat) (hb : 0 < b) (hn : 0 < n) (h53 : n < 2 ^ 53) :
    roundPosToDouble (b * n) b
      = some (n * 2 ^ (52 - log2Fuel n n), (log2Fuel n n : Int) - 52) := by
  obtain ⟨hlo, hhi⟩ := log2Fuel_bounds n n hn le_rfl
  have he52 : log2Fuel n n ≤ 52 := log2Fuel_le_52 n hn h53
  have hsc : b * n * 2 ^ 2200 / b = n * 2 ^ 2200 := by
    rw [Nat.mul_assoc, Nat.mul_div_cancel_left _ hb]
  have hscpos : 0 < n * 2 ^ 2200 := by positivity
  have hlog : log2Fuel (n * 2 ^ 2200) (n * 2 ^ 2200) = log2Fuel n n + 2200 := by
    apply log2Fuel_unique _ _ _ hscpos le_rfl
    · rw [pow_add]
      exact Nat.mul_le_mul_right _ hlo
    · rw [show log2Fuel n n + 2200 + 1 = log2Fuel n n + 1 + 2200 by omega, pow_add]
      exact Nat.mul_lt_mul_of_lt_of_le hhi le_rfl (by positivity)
  rw [roundPosToDouble, hsc, if_neg (by omega), hlog]
  have hE : ((log2Fuel n n + 2200 : Nat) : Int) - 2200 = (log2Fuel n n : Int) := by
    push_cast
    ring
  rw [hE]
  have hge : gridExp (log2Fuel n n : Int) = (log2Fuel n n : Int) - 52 := by
    rw [gridExp, if_pos (by omega)]
  rw [hge, doubleRound]
  have hu1 : (-((log2Fuel n n : Int) - 52)).toNat = 52 - log2Fuel n n := by omega
  have hu2 : ((log2Fuel n n : Int) - 52).toNat = 0 := by omega
  rw [hu1, hu2, pow_zero, mul_one, mul_one]
  have hq : roundHalfEven (b * n * 2 ^ (52 - log2Fuel n n)) b
      = n * 2 ^ (52 - log2Fuel n n) := by
    rw [roundHalfEven, Nat.mul_assoc, Nat.mul_mod_right, Nat.mul_div_cancel_left _ hb,
      if_pos (by omega)]
  rw [hq, if_neg ?hno]
  case hno =>
    push_neg
    have h1 : n * 2 ^ (52 - log2Fuel n n) < 2 ^ 53 * 2 ^ (52 - log2Fuel n n) :=
      Nat.mul_lt_mul_of_lt_of_le h53 le_rfl (by positivity)
    have h2 : (2 : Nat) ^ 53 * 2 ^ (52 - log2Fuel n n)
        ≤ 2 ^ 1024 * 2 ^ (52 - log2Fuel n n) :=
      Nat.mul_le_mul_right _ (Nat.pow_le_pow_right (by norm_num) (by norm_num))
    omega

/-- Truncating the dyadic pair produced by exact rounding recovers the
integer. -/
theorem truncDyadic_exact (k e : Nat) (he : e ≤ 52) :
    truncDyadic (k * 2 ^ (52 - e), (e : Int) - 52) = k := by
  rw [truncDyadic]
  by_cases h : (0 : Int) ≤ (e : Int) - 52
  · have h52 : e = 52 := by omega
    subst h52
    rw [if_pos h]
    norm_num
  · rw [if_neg h]
    have h1 : (-((e : Int) - 52)).toNat = 52 - e := by omega
    rw [h1, Nat.mul_div_cancel _ (by positivity)]

/-- The whole magnitude pipeline `int(float(n) * mult)` is exact whenever the
product `n * mult` of the integer value and the multiplier stays below
`2 ^ 53` — both roundings land on representable values. -/
theorem floatTimesInt_exact (n mult : Nat) (hm : 0 < mult) (h53 : n * mult < 2 ^ 53) :
    floatTimesInt n 1 mult = some (n * mult) := by
  rcases Nat.eq_zero_or_pos n with hz | hn
  · subst hz
    have h1 : roundPosToDouble 0 1 = some (0, 0) := by
      rw [roundPosToDouble, if_pos (by norm_num)]
    have h2 : mulDoubleNat (0, 0) mult = some (0, 0) := by
      unfold mulDoubleNat
      dsimp only
      rw [if_pos le_rfl]
      have harg : (0 : Nat) * mult * 2 ^ ((0 : Int)).toNat = 0 := by norm_num
      rw [harg, h1]
    rw [floatTimesInt]
    simp only [h1, h2, truncDyadic]
    norm_num
  · have hnm : 0 < n * mult := Nat.mul_pos hn hm
    have h53n : n < 2 ^ 53 := by
      calc n = n * 1 := (mul_one n).symm
      _ ≤ n * mult := Nat.mul_le_mul_left n hm
      _ < 2 ^ 53 := h53
    have hr1 := roundPosToDouble_exact_int 1 n one_pos hn h53n
    rw [one_mul] at hr1
    have hr2 := roundPosToDouble_exact_int 1 (n * mult) one_pos hnm h53
    rw [one_mul] at hr2
    have hmul : mulDoubleNat (n * 2 ^ (52 - log2Fuel n n), (log2Fuel n n : Int) - 52) mult
        = some ((n * mult) * 2 ^ (52 - log2Fuel (n * mult) (n * mult)),
            (log2Fuel (n * mult) (n * mult) : Int) - 52) := by
      unfold mulDoubleNat
      dsimp only
      by_cases hcase : (0 : Int) ≤ (log2Fuel n n : Int) - 52
      · have he : log2Fuel n n = 52 := by
          have he52 := log2Fuel_le_52 n hn h53n
          omega
        rw [if_pos hcase, he]
        have harg : n * 2 ^ (52 - 52) * mult * 2 ^ (((52 : Nat) : Int) - 52).toNat
            = n * mult := by norm_num
        rw [harg, hr2]
      · rw [if_neg hcase]
        have h1 : (-((log2Fuel n n : Int) - 52)).toNat = 52 - log2Fuel n n := by omega
        rw [h1]
        have harg : n * 2 ^ (52 - log2Fuel n n) * mult
            = 2 ^ (52 - log2Fuel n n) * (n * mult) := by ring
        rw [harg]
        rw [roundPosToDouble_exact_int (2 ^ (52 - log2Fuel n n)) (n * mult)
          (by positivity) hnm h53]
    rw [floatTimesInt]
    simp only [hr1, hmul]
    rw [truncDyadic_exact (n * mult) _ (log2Fuel_le_52 _ hnm h53)]

/-- Core round trip, unit form: digits followed by a unit letter parse to the
digit value times that unit's multiplier, provided the product stays within
exact binary64 range. -/
theorem parseAgeCore_digits_unit (ds : List Char) (u : Char) (m : Nat)
    (hne : ds ≠ []) (hd : ∀ c ∈ ds, isDigitCh c = true)
    (hu : isAgeUnitCh u = true) (hm : age_unit_to_multiplier (some u) = some m)
    (hbound : natOfDigits ds * m < 2 ^ 53) :
    parseAgeCore (ds ++ [u]) = some ((natOfDigits ds * m : Nat) : Int) := by
  unfold parseAgeCore
  simp only [List.getLast?_concat, hu, if_true, List.dropLast_concat,
    signSplit_digits ds hd, parseNumber_digits ds hne hd, hm,
    floatTimesInt_exact (natOfDigits ds) m (age_unit_multiplier_pos _ _ hm) hbound]
  rw [one_mul]

/-- Core round trip, unitless form: a bare digit string parses to the digit
value times the default multiplier 86400 (days), within exact binary64
range. -/
theorem parseAgeCore_digits (ds : List Char) (hne : ds ≠ [])
    (hd : ∀ c ∈ ds, isDigitCh c = true)
    (hbound : natOfDigits ds * 86400 < 2 ^ 53) :
    parseAgeCore ds = some ((natOfDigits ds * 86400 : Nat) : Int) := by
  unfold parseAgeCore
  cases hlast : ds.getLast? with
  | none =>
    rw [List.getLast?_eq_none_iff] at hlast
    exact absurd hlast hne
  | some c =>
    have hcd : isDigitCh c = true := hd c (List.mem_of_mem_getLast? hlast)
    simp only [hlast, digit_not_unit c hcd, Bool.false_eq_true, if_false,
      signSplit_digits ds hd, parseNumber_digits ds hne hd, age_unit_to_multiplier,
      floatTimesInt_exact (natOfDigits ds) 86400 (by norm_num) hbound]
    rw [one_mul]

/-- Round trip through the full threshold parser, unit form. -/
theorem parseAgeThreshold_digits_unit (ds : List Char) (u : Char) (m : Nat)
    (hne : ds ≠ []) (hd : ∀ c ∈ ds, isDigitCh c = true)
    (hu : isAgeUnitCh u = true) (hm : age_unit_to_multiplier (some u) = some m)
    (hbound : natOfDigits ds * m < 2 ^ 53) :
    parseAgeThreshold (String.mk (ds ++ [u])) = some ((natOfDigits ds * m : Nat) : Int) := by
  have hdata : (String.mk (ds ++ [u])).data = ds ++ [u] := rfl
  unfold parseAgeThreshold
  simp only [hdata, List.getLast?_concat, ageUnit_ne_newline u hu,
    Bool.false_eq_true, if_false]
  exact parseAgeCore_digits_unit ds u m hne hd hu hm hbound

/-- Round trip through the full threshold parser, unitless form. -/
theorem parseAgeThreshold_digits (ds : List Char) (hne : ds ≠ [])
    (hd : ∀ c ∈ ds, isDigitCh c = true)
    (hbound : natOfDigits ds * 86400 < 2 ^ 53) :
    parseAgeThreshold (String.mk ds) = some ((natOfDigits ds * 86400 : Nat) : Int) := by
  have hdata : (String.mk ds).data = ds := rfl
  unfold parseAgeThreshold
  cases hlast : ds.getLast? with
  | none =>
    rw [List.getLast?_eq_none_iff] at hlast
    exact absurd hlast hne
  | some c =>
    have hcd : isDigitCh c = true := hd c (List.mem_of_mem_getLast? hlast)
    simp only [hdata, hlast, digit_beq_false c '\n' hcd (by decide),
      Bool.false_eq_true, if_false]
    exact parseAgeCore_digits ds hne hd hbound

/-- C8, as amended: a malformed age threshold (one the regex rejects, such
as `"abc"`) makes the run exit with code 2 with nothing removed, whatever
the filesystem state — so before any traversal or mutation.  For well-formed
values the unit multiplier is 1 for `s`/`S`, 60 for `m`/`M`, 3600 for
`h`/`H`, 86400 for `d`/`D` and for the default (no unit: days), and the
threshold in seconds equals the numeric value times the unit multiplier
whenever that product is below `2 ^ 53`, the bound up to which the script's
binary64 arithmetic is exact. -/
theorem age_threshold_malformed_exits_2_and_representable_roundtrip :
    (∀ (args : CliArgs) (fs : ShmFs), parseAgeThreshold args.age_threshold = none →
      runMain args fs = RunResult.exited 2 ∅)
    ∧ parseAgeThreshold "abc" = none
    ∧ (age_unit_to_multiplier none = some 86400
      ∧ age_unit_to_multiplier (some 's') = some 1
      ∧ age_unit_to_multiplier (some 'S') = some 1
      ∧ age_unit_to_multiplier (some 'm') = some 60
      ∧ age_unit_to_multiplier (some 'M') = some 60
      ∧ age_unit_to_multiplier (some 'h') = some 3600
      ∧ age_unit_to_multiplier (some 'H') = some 3600
      ∧ age_unit_to_multiplier (some 'd') = some 86400
      ∧ age_unit_to_multiplier (some 'D') = some 86400)
    ∧ (∀ (ds : List Char) (u : Char) (m : Nat),
        ds ≠ [] → (∀ c ∈ ds, isDigitCh c = true) →
        isAgeUnitCh u = true → age_unit_to_multiplier (some u) = some m →
        natOfDigits ds * m < 2 ^ 53 →
        parseAgeThreshold (String.mk (ds ++ [u])) = some ((natOfDigits ds * m : Nat) : Int))
    ∧ (∀ ds : List Char, ds ≠ [] → (∀ c ∈ ds, isDigitCh c = true) →
        natOfDigits ds * 86400 < 2 ^ 53 →
        parseAgeThreshold (String.mk ds) = some ((natOfDigits ds * 86400 : Nat) : Int)) := by
  refine ⟨?_, by decide, by decide, parseAgeThreshold_digits_unit, parseAgeThreshold_digits⟩
  intro args fs hp
  simp only [runMain, hp]

/-- Counterexample to C8 as stated: `"9007199254740993s"` is a well-formed
age threshold (numeric value 2^53 + 1, unit `s`, multiplier 1), yet the
program computes `int(float("9007199254740993") * 1)` = 9007199254740992 —
the conversion to binary64 rounds 2^53 + 1 half-to-even down to 2^53 — so
its threshold is not the numeric value times the multiplier.  A well-formed
value beyond the double range (1 followed by 309 zeros, unit `s`) overflows
to infinity, and the caught `OverflowError` from `int()` exits the run with
code 2 instead of producing any threshold. -/
theorem age_threshold_roundtrip_cex :
    parseAgeThreshold "9007199254740993s" = some 9007199254740992
    ∧ natOfDigits "9007199254740993".data * 1 = 9007199254740993
    ∧ (9007199254740992 : Int) ≠ ((9007199254740993 : Nat) : Int)
    ∧ parseAgeThreshold (String.mk ('1' :: List.replicate 309 '0' ++ ['s'])) = none :=
  ⟨by decide, by decide, by decide, by decide⟩

/-- Witness for the amended C8 at concrete inputs: `"abc"` exits 2 removing
nothing; `"42h"` parses to 42·3600 s; `"7"` parses to 7·86400 s (both
products far below 2^53). -/
theorem age_threshold_malformed_exits_2_and_representable_roundtrip_witness :
    runMain ⟨false, "abc", false⟩ ⟨[], [], (fun _ => none), 0, true, ∅, 0⟩
      = RunResult.exited 2 ∅
    ∧ parseAgeThreshold (String.mk (['4', '2'] ++ ['h']))
      = some ((natOfDigits ['4', '2'] * 3600 : Nat) : Int)
    ∧ parseAgeThreshold (String.mk ['7'])
      = some ((natOfDigits ['7'] * 86400 : Nat) : Int) :=
  ⟨age_threshold_malformed_exits_2_and_representable_roundtrip.1 ⟨false, "abc", false⟩
      ⟨[], [], (fun _ => none), 0, true, ∅, 0⟩ (by decide),
    age_threshold_malformed_exits_2_and_representable_roundtrip.2.2.2.1 ['4', '2'] 'h' 3600
      (by decide) (by decide) (by decide) (by decide) (by decide),
    age_threshold_malformed_exits_2_and_representable_roundtrip.2.2.2.2 ['7']
      (by decide) (by decide) (by decide)⟩
